import Mathlib

/-!
Verification of the builder_cpp build orchestrator (src/builder.rs, src/utils.rs,
src/main.rs) against its natural-language specification.

The Rust sources are shallowly embedded: filesystem state (existence, mtimes,
file contents) is passed explicitly, external commands (compiler, linker, git)
are oracles mapping a command to a success bit, and the unbounded recursions of
the source are given an explicit fuel parameter.  All definitions are written
with structural recursion over character lists or fuel so that every concrete
run evaluates inside the kernel.
-/

namespace BuilderCpp

/-! ### Character-list string primitives

Rust's `str::starts_with`, `str::split`, `str::split_whitespace` and
`String::replace` are modelled over `List Char` (structural, kernel-reducible)
and wrapped at the `String` level.  `replace` is non-overlapping and
left-to-right, exactly as in Rust. -/

/-- Rust `str::starts_with`: first argument is the string, second the pattern. -/
def listStarts : List Char → List Char → Bool
  | _, [] => true
  | [], _ :: _ => false
  | c :: s, p :: ps => c == p && listStarts s ps

/-- Rust `str::split` with a single-character pattern: empty chunks are kept. -/
def splitChar (sep : Char) : List Char → List (List Char)
  | [] => [[]]
  | c :: cs =>
    if c == sep then [] :: splitChar sep cs
    else
      match splitChar sep cs with
      | [] => [[c]]
      | h :: t => (c :: h) :: t

/-- Splitting at every character satisfying a predicate (used for Rust
`split_whitespace`, whose empty chunks are dropped by the wrapper below). -/
def splitPred (p : Char → Bool) : List Char → List (List Char)
  | [] => [[]]
  | c :: cs =>
    if p c then [] :: splitPred p cs
    else
      match splitPred p cs with
      | [] => [[c]]
      | h :: t => (c :: h) :: t

/-- Rust `String::replace`, fuelled so the recursion is structural; the caller
passes the string's length as fuel, which suffices for a non-empty pattern
because every step consumes at least one character. -/
def replaceFuel (pat repl : List Char) : Nat → List Char → List Char
  | 0, s => s
  | _ + 1, [] => []
  | f + 1, c :: cs =>
    if listStarts (c :: cs) pat then repl ++ replaceFuel pat repl f ((c :: cs).drop pat.length)
    else c :: replaceFuel pat repl f cs

/-- Boolean string equality through the character lists (kernel-reducible). -/
def sEq (a b : String) : Bool := a.data == b.data

/-- Rust `str::starts_with` on `String`. -/
def sStarts (s pat : String) : Bool := listStarts s.data pat.data

/-- Rust `str::split('<sep>')` on `String`, collected to a vector. -/
def sSplitOn (sep : Char) (s : String) : List String :=
  (splitChar sep s.data).map (fun l => ⟨l⟩)

/-- Rust `String::replace(pat, repl)` on `String`. -/
def sReplace (s pat repl : String) : String :=
  ⟨replaceFuel pat.data repl.data s.data.length s.data⟩

/-- Rust `str::split_whitespace().collect::<Vec<_>>()`. -/
def splitWhitespaceS (s : String) : List String :=
  ((splitPred Char.isWhitespace s.data).filter (fun l => !l.isEmpty)).map (fun l => ⟨l⟩)

/-- Boolean membership of a string in a list of strings. -/
def memS (x : String) (l : List String) : Bool := l.any (fun y => sEq x y)

/-! ### Filesystem and configuration model

The run-time filesystem is read through two total observations: existence and
modification time.  The source treats a metadata query on a missing path as
fatal (`unwrap`); the claims under study only concern runs where every queried
path is readable, so `mtime` is total here. -/

/-- Filesystem observations used by the staleness evaluator. -/
structure Fs where
  pathExists : String → Bool
  mtime : String → Nat

/-- Mirrors `utils::BuildConfig`. -/
structure BuildConfig where
  compiler : String
  build_dir : String
  obj_dir : String
  packages : List String
deriving Repr, DecidableEq

/-- Mirrors `utils::TargetConfig`. -/
structure TargetConfig where
  name : String
  src : String
  include_dir : String
  typ : String
  cflags : String
  libs : String
  deps : List String
deriving Repr, DecidableEq

/-- Mirrors `builder::Src`: one C/C++ translation unit of a target. -/
structure Src where
  path : String
  name : String
  obj_name : String
  dependant_includes : List String
deriving Repr

/-! ### Staleness evaluator (`Src::to_build`, builder.rs lines 212-232) -/

/-- The `for dependant_include in &self.dependant_includes` loop of
`Src::to_build`: true as soon as some header is newer than the object. -/
def checkDeps (fs : Fs) (objTime : Nat) : List String → Bool
  | [] => false
  | d :: ds => if objTime < fs.mtime d then true else checkDeps fs objTime ds

/-- Mirrors `Src::to_build`: object missing, object older than source, then
object older than some transitive header, first match winning. -/
def to_build (fs : Fs) (s : Src) : Bool :=
  if !(fs.pathExists s.obj_name) then true
  else if fs.mtime s.obj_name < fs.mtime s.path then true
  else checkDeps fs (fs.mtime s.obj_name) s.dependant_includes

theorem checkDeps_eq_true_iff (fs : Fs) (t : Nat) (ds : List String) :
    checkDeps fs t ds = true ↔ ∃ d ∈ ds, t < fs.mtime d := by
  induction ds with
  | nil => simp [checkDeps]
  | cons d ds ih =>
    by_cases h : t < fs.mtime d
    · simp [checkDeps, h]
    · simp [checkDeps, h, ih]

/-! ### Include extractor (`Target::get_include_substrings`, builder.rs 184-198)

The file is already split into lines; the extractor keeps, in file order, every
line starting with the exact ten characters of the quote-include prefix and
takes the text between the first two double quotes (Rust
`line.split('"').nth(1).unwrap()`, whose unwrap cannot fail on a kept line
because the prefix itself contains a quote). -/

/-- Mirrors the `while let Some(line) = lines.next()` loop of
`get_include_substrings`. -/
def get_include_substrings : List String → List String
  | [] => []
  | line :: rest =>
    if sStarts line "#include \"" then
      ((sSplitOn '"' line).getD 1 "") :: get_include_substrings rest
    else
      get_include_substrings rest

/-! ### Dependency resolver (`Target::get_dependant_includes`, builder.rs 160-180)

The target's include cache (`Target.dependant_includes`, a `HashMap`) is an
association list consulted with `contains_key` only; `files` maps a path to the
lines of that file; the recursion of the source is unbounded, so it carries a
fuel parameter and `none` means the recursion did not complete within the
fuel. -/

/-- Target include cache: raw include string mapped to the list stored by
`self.dependant_includes.insert(...)`. -/
abbrev IncludeCache := List (String × List String)

/-- Rust `HashMap::contains_key`. -/
def cacheHas (cache : IncludeCache) (k : String) : Bool :=
  cache.any (fun p => sEq p.1 k)

/-- Itertools `unique()`: deduplicate keeping the first occurrence. -/
def dedupAux (seen : List String) : List String → List String
  | [] => []
  | x :: xs => if memS x seen then dedupAux seen xs else x :: dedupAux (x :: seen) xs

/-- Deduplication applied by `result.into_iter().unique().collect()`. -/
def dedupFirst (l : List String) : List String := dedupAux [] l

/-- Body of the `for include_substring in include_substrings` loop of
`get_dependant_includes`: skip a cached key, otherwise recurse on
`include_dir/include_substring`, append the child result and the path, and
insert the accumulated list into the cache. -/
def includesFold (recurse : String → IncludeCache → Option (List String × IncludeCache))
    (include_dir : String) (acc : Option (List String × IncludeCache)) (sub : String) :
    Option (List String × IncludeCache) :=
  match acc with
  | none => none
  | some (result, cache) =>
    if cacheHas cache sub then some (result, cache)
    else
      let include_path := include_dir ++ "/" ++ sub
      match recurse include_path cache with
      | none => none
      | some (child, cache1) =>
        let result1 := result ++ child ++ [include_path]
        some (result1, (sub, result1) :: cache1)

/-- Mirrors `Target::get_dependant_includes` with explicit fuel; the cache is
inserted into only after the recursive resolution of a key returns, exactly as
in the source. -/
def get_dependant_includes (files : String → List String) (include_dir : String) :
    Nat → String → IncludeCache → Option (List String × IncludeCache)
  | 0, _, _ => none
  | fuel + 1, path, cache =>
    match (get_include_substrings (files path)).foldl
        (includesFold (fun p c => get_dependant_includes files include_dir fuel p c) include_dir)
        (some ([], cache)) with
    | none => none
    | some (result, cache1) => some (dedupFirst result, cache1)

/-- Mirrors the `add_src` sequence of `Target::new`/`get_srcs`: each discovered
source file is resolved in order against the one cache owned by the target. -/
def resolve_srcs (files : String → List String) (include_dir : String) (fuel : Nat) :
    List String → IncludeCache → Option (List (String × List String) × IncludeCache)
  | [], cache => some ([], cache)
  | p :: ps, cache =>
    match get_dependant_includes files include_dir fuel p cache with
    | none => none
    | some (deps, cache1) =>
      match resolve_srcs files include_dir fuel ps cache1 with
      | none => none
      | some (rest, cache2) => some ((p, deps) :: rest, cache2)

end BuilderCpp

namespace BuilderCpp

/-- C3: `Src::to_build` returns true iff the object artifact is absent, or the
artifact's mtime is less than the source's mtime, or the artifact's mtime is
less than the mtime of some transitive header, in that order with first match
winning; otherwise it returns false. -/
theorem to_build_decides_staleness (fs : Fs) (s : Src) :
    to_build fs s = true ↔
      fs.pathExists s.obj_name = false
      ∨ fs.mtime s.obj_name < fs.mtime s.path
      ∨ ∃ d ∈ s.dependant_includes, fs.mtime s.obj_name < fs.mtime d := by
  by_cases hex : fs.pathExists s.obj_name
  · by_cases hsrc : fs.mtime s.obj_name < fs.mtime s.path
    · simp [to_build, hex, hsrc]
    · simp [to_build, hex, hsrc, checkDeps_eq_true_iff]
  · simp [to_build, hex]

/-- C8: `get_include_substrings` recognizes a directive only on a line whose
text begins with exactly `#include "`; any line without that exact prefix
(leading whitespace, extra spacing inside the directive) contributes nothing to
the returned list, while exact-prefix lines contribute in file order. -/
theorem include_directive_exact_ten_chars :
    (∀ pre post line, sStarts line "#include \"" = false →
      get_include_substrings (pre ++ line :: post) = get_include_substrings (pre ++ post))
    ∧ get_include_substrings
        ["#include \"x.h\"", "  #include \"y.h\"", "#include  \"z.h\"",
         "# include \"w.h\"", "#include \"v.h\""]
        = ["x.h", "v.h"] := by
  constructor
  · intro pre post line h
    induction pre with
    | nil => simp [get_include_substrings, h]
    | cons a as ih => simp [get_include_substrings, ih]
  · rfl

/-- Witness for C8: a quote-include with leading whitespace is dropped from the
extraction of a concrete file. -/
theorem include_directive_exact_ten_chars_witness :
    sStarts "  #include \"a.h\"" "#include \"" = false
    ∧ get_include_substrings (["#include \"x.h\""] ++ "  #include \"a.h\"" :: [])
        = get_include_substrings (["#include \"x.h\""] ++ []) :=
  ⟨rfl, include_directive_exact_ten_chars.1 ["#include \"x.h\""] [] "  #include \"a.h\"" rfl⟩

/-! ### C1: mutual quote-includes make `get_dependant_includes` loop forever

Two headers `a.h` and `b.h` include each other and are reachable from
`src/main.cpp`.  The cache is only inserted into after a recursive resolution
returns, so when `b.h` rediscovers the in-flight `a.h` the cache is still empty
and the recursion re-enters `a.h` with an unchanged state: no fuel bound
completes the resolution. -/

/-- Lines of the three files of the cyclic example. -/
def cycFiles : String → List String := fun p =>
  if sEq p "src/main.cpp" then ["#include \"a.h\""]
  else if sEq p "include/a.h" then ["#include \"b.h\""]
  else if sEq p "include/b.h" then ["#include \"a.h\""]
  else []

theorem gdi_single_sub_none (files : String → List String) (incDir : String) (f : Nat)
    (path sub : String) (hsubs : get_include_substrings (files path) = [sub])
    (hrec : get_dependant_includes files incDir f (incDir ++ "/" ++ sub) [] = none) :
    get_dependant_includes files incDir (f + 1) path [] = none := by
  simp [get_dependant_includes, hsubs, includesFold, cacheHas, hrec]

theorem cyc_headers_no_fuel (fuel : Nat) :
    get_dependant_includes cycFiles "include" fuel "include/a.h" [] = none
    ∧ get_dependant_includes cycFiles "include" fuel "include/b.h" [] = none := by
  induction fuel with
  | zero => exact ⟨rfl, rfl⟩
  | succ f ih =>
    refine ⟨gdi_single_sub_none cycFiles "include" f _ "b.h" rfl ?_,
            gdi_single_sub_none cycFiles "include" f _ "a.h" rfl ?_⟩
    · exact ih.2
    · exact ih.1

/-- C1: on a source reaching two headers that quote-include each other,
`get_dependant_includes` never completes, whatever the recursion budget: the
in-flight header is rediscovered with a still-empty cache and re-entered, so
the cycle is not broken. -/
theorem mutual_includes_exhaust_any_fuel :
    (∀ fuel : Nat, get_dependant_includes cycFiles "include" fuel "src/main.cpp" [] = none)
    ∧ "b.h" ∈ get_include_substrings (cycFiles "include/a.h")
    ∧ "a.h" ∈ get_include_substrings (cycFiles "include/b.h") := by
  refine ⟨fun fuel => ?_, by decide, by decide⟩
  cases fuel with
  | zero => rfl
  | succ f =>
    exact gdi_single_sub_none cycFiles "include" f _ "a.h" rfl (cyc_headers_no_fuel f).1

/-! ### C2: a header shared between two sources vanishes from the second list

On a cache hit the source `continue`s without appending the cached value, so
the first source to mention `c.h` gets it in its list and every later source
does not, although `c.h` is still reachable from them. -/

/-- Lines of the two-source example sharing the header `c.h` (which itself has
no includes). -/
def diamondFiles : String → List String := fun p =>
  if sEq p "src/s1.cpp" then ["#include \"c.h\""]
  else if sEq p "src/s2.cpp" then ["#include \"c.h\""]
  else []

/-- C2 fails on the code: resolving the target's two sources in order, the
second source's returned list is empty even though `c.h` appears among its
include substrings, because the cache hit skips the header without appending
the cached resolution. -/
theorem shared_header_missing_from_second_source :
    resolve_srcs diamondFiles "include" 3 ["src/s1.cpp", "src/s2.cpp"] []
      = some ([("src/s1.cpp", ["include/c.h"]), ("src/s2.cpp", [])],
              [("c.h", ["include/c.h"])])
    ∧ "c.h" ∈ get_include_substrings (diamondFiles "src/s2.cpp") :=
  ⟨rfl, by decide⟩

/-! ### Target build orchestration (`Target::build`, `Src::build`, `Target::link`)

External commands are an oracle `exec` from the command line to its success
bit.  `Src::build` (builder.rs 234-269) logs a failure but never terminates the
process; `Target::link` (builder.rs 49-112) exits with status 1 when the linker
fails or the target type is invalid.  A run is the ordered list of toolchain
invocations plus the process exit status (`none` when the run goes on). -/

/-- One toolchain invocation and its outcome. -/
inductive ToolEvent where
  | compile (cmd : String) (ok : Bool)
  | link (cmd : String) (ok : Bool)
deriving Repr, DecidableEq

/-- Mirrors the command string assembled by `Src::build`. -/
def src_build_cmd (build_config : BuildConfig) (target_config : TargetConfig) (s : Src) : String :=
  build_config.compiler ++ " -c " ++ s.path ++ " -o " ++ s.obj_name
    ++ " -I" ++ target_config.include_dir ++ " " ++ target_config.cflags
    ++ (if sEq target_config.typ "dll" then " -fPIC -shared" else "")

/-- Mirrors the command string assembled by `Target::link` on the linux branch
(no suffix for `exe`, `.so` plus the shared flag for `dll`); only evaluated on
those two types, the invalid case exits before any command is built. -/
def link_cmd (build_config : BuildConfig) (target_config : TargetConfig) (srcs : List Src) : String :=
  let base := build_config.compiler ++ " -o " ++ build_config.build_dir ++ "/" ++ target_config.name
  let base := if sEq target_config.typ "exe" then base else base ++ ".so" ++ " -shared "
  (srcs.foldl (fun c s => c ++ " " ++ s.obj_name) base)
    ++ " " ++ target_config.cflags ++ " " ++ target_config.libs

/-- Mirrors `Target::link`: one linker invocation over the full object list; a
non-zero result, or an invalid target type, exits the process with status 1. -/
def link_run (exec : String → Bool) (build_config : BuildConfig) (target_config : TargetConfig)
    (srcs : List Src) : List ToolEvent × Option Nat :=
  if sEq target_config.typ "exe" || sEq target_config.typ "dll" then
    let cmd := link_cmd build_config target_config srcs
    if exec cmd then ([ToolEvent.link cmd true], none)
    else ([ToolEvent.link cmd false], some 1)
  else ([], some 1)

/-- Mirrors the `for src in &self.srcs` loop of `Target::build`: each stale
source gets its own compiler invocation; the outcome of one invocation is never
consulted before attempting the next. -/
def build_loop (fs : Fs) (exec : String → Bool) (build_config : BuildConfig)
    (target_config : TargetConfig) : List Src → List ToolEvent
  | [] => []
  | s :: rest =>
    if to_build fs s then
      ToolEvent.compile (src_build_cmd build_config target_config s)
          (exec (src_build_cmd build_config target_config s))
        :: build_loop fs exec build_config target_config rest
    else build_loop fs exec build_config target_config rest

/-- Mirrors `Target::build`: all compile attempts, then `self.link()`. -/
def target_build (fs : Fs) (exec : String → Bool) (build_config : BuildConfig)
    (target_config : TargetConfig) (srcs : List Src) : List ToolEvent × Option Nat :=
  (build_loop fs exec build_config target_config srcs
      ++ (link_run exec build_config target_config srcs).1,
   (link_run exec build_config target_config srcs).2)

theorem build_loop_eq_filter_map (fs : Fs) (exec : String → Bool) (bc : BuildConfig)
    (tc : TargetConfig) (srcs : List Src) :
    build_loop fs exec bc tc srcs
      = (srcs.filter (fun s => to_build fs s)).map
          (fun s => ToolEvent.compile (src_build_cmd bc tc s) (exec (src_build_cmd bc tc s))) := by
  induction srcs with
  | nil => rfl
  | cons s rest ih =>
    by_cases h : to_build fs s <;> simp [build_loop, List.filter_cons, h, ih]

/-- C5: during `Target::build`, a failing compile does not abort the remaining
compile attempts (under any oracle of command outcomes, every stale source
contributes exactly its own invocation, in order), `link()` runs exactly once,
after all compiles, over the command holding the full object list, and the run
exits with status 1 exactly when the link result is non-zero. -/
theorem failed_compile_does_not_abort_and_single_link (fs : Fs) (exec : String → Bool)
    (bc : BuildConfig) (tc : TargetConfig) (srcs : List Src)
    (h : sEq tc.typ "exe" = true ∨ sEq tc.typ "dll" = true) :
    (target_build fs exec bc tc srcs).1
      = (srcs.filter (fun s => to_build fs s)).map
          (fun s => ToolEvent.compile (src_build_cmd bc tc s) (exec (src_build_cmd bc tc s)))
        ++ [ToolEvent.link (link_cmd bc tc srcs) (exec (link_cmd bc tc srcs))]
    ∧ (target_build fs exec bc tc srcs).2
      = (if exec (link_cmd bc tc srcs) then none else some 1) := by
  have hor : (sEq tc.typ "exe" || sEq tc.typ "dll") = true := by
    rcases h with h | h <;> simp [h]
  refine ⟨?_, ?_⟩
  all_goals by_cases he : exec (link_cmd bc tc srcs) <;>
    simp [target_build, build_loop_eq_filter_map, link_run, hor, he]

/-- Concrete data for the C5 witness: an empty filesystem (every object
missing, so both sources are stale) and an oracle failing every command. -/
def fsEmpty : Fs := ⟨fun _ => false, fun _ => 0⟩

/-- Oracle under which every toolchain invocation fails. -/
def execAllFail : String → Bool := fun _ => false

/-- Build configuration used by concrete examples. -/
def bcEx : BuildConfig := ⟨"cc", "build", "obj", []⟩

/-- Executable target configuration used by concrete examples. -/
def tcExe : TargetConfig := ⟨"app", "./src", "./include", "exe", "-O2", "-lm", []⟩

/-- Two sources of the C5 witness target. -/
def srcsEx : List Src :=
  [⟨"./src/a.cpp", "a", "obj/a.o", []⟩, ⟨"./src/b.cpp", "b", "obj/b.o", []⟩]

/-- Witness for C5: with every command failing and both sources stale, both
compiles are still attempted, the single link follows, and the run exits 1. -/
theorem failed_compile_does_not_abort_and_single_link_witness :
    (target_build fsEmpty execAllFail bcEx tcExe srcsEx).1
      = (srcsEx.filter (fun s => to_build fsEmpty s)).map
          (fun s => ToolEvent.compile (src_build_cmd bcEx tcExe s)
            (execAllFail (src_build_cmd bcEx tcExe s)))
        ++ [ToolEvent.link (link_cmd bcEx tcExe srcsEx) (execAllFail (link_cmd bcEx tcExe srcsEx))]
    ∧ (target_build fsEmpty execAllFail bcEx tcExe srcsEx).2
      = (if execAllFail (link_cmd bcEx tcExe srcsEx) then none else some 1) :=
  failed_compile_does_not_abort_and_single_link fsEmpty execAllFail bcEx tcExe srcsEx (Or.inl rfl)

/-! ### The executable-target check of `main` (main.rs 12-30)

Before the argument loop that triggers cleaning, building and running, `main`
counts the `exe`-typed targets (remembering the last one seen) and exits with
status 1 when the project has no targets or the count differs from one.  The
argument loop is abstracted to the list of actions it would trigger; what
matters for the claim is that a rejected configuration produces no action at
all. -/

/-- Actions the argument loop of `main` can trigger after the check. -/
inductive MainAct where
  | cleanAct
  | buildAct
  | runAct
  | helpAct
deriving Repr, DecidableEq

/-- Actions triggered by one argument (`-c`, `-r`, `-b`, `-rb`, `-h`). -/
def argActs (arg : String) : List MainAct :=
  (if sEq arg "-c" then [MainAct.cleanAct] else [])
    ++ (if sEq arg "-r" then [MainAct.buildAct, MainAct.runAct] else [])
    ++ (if sEq arg "-b" then [MainAct.buildAct] else [])
    ++ (if sEq arg "-rb" then [MainAct.cleanAct, MainAct.buildAct, MainAct.runAct] else [])
    ++ (if sEq arg "-h" then [MainAct.helpAct] else [])

/-- Mirrors the `for target in &targets` counting loop of `main`: the number of
`exe` targets and the last one seen. -/
def exeScan (targets : List TargetConfig) : Nat × Option TargetConfig :=
  targets.foldl (fun acc t => if sEq t.typ "exe" then (acc.1 + 1, some t) else acc) (0, none)

/-- Mirrors `main`: empty target list or an `exe` count different from one
exits with status 1 before the argument loop; otherwise the argument loop runs. -/
def mainRun (targets : List TargetConfig) (args : List String) : List MainAct × Option Nat :=
  if targets.length == 0 then ([], some 1)
  else
    let scanned := exeScan targets
    if scanned.1 != 1 || scanned.2.isNone then ([], some 1)
    else (args.foldl (fun acc a => acc ++ argActs a) [], none)

theorem exeScan_foldl_fst (ts : List TargetConfig) (n : Nat) (e : Option TargetConfig) :
    (ts.foldl (fun acc t => if sEq t.typ "exe" then (acc.1 + 1, some t) else acc) (n, e)).1
      = n + (ts.filter (fun t => sEq t.typ "exe")).length := by
  induction ts generalizing n e with
  | nil => simp
  | cons t ts ih =>
    by_cases h : sEq t.typ "exe"
    · simp [List.filter_cons, h, ih]
      omega
    · simp [List.filter_cons, h, ih]

theorem exeScan_foldl_snd (ts : List TargetConfig) (n : Nat) (e : Option TargetConfig) :
    (ts.foldl (fun acc t => if sEq t.typ "exe" then (acc.1 + 1, some t) else acc) (n, e)).2.isNone
      = (e.isNone && (ts.filter (fun t => sEq t.typ "exe")).isEmpty) := by
  induction ts generalizing n e with
  | nil => simp
  | cons t ts ih =>
    by_cases h : sEq t.typ "exe" <;> simp [List.filter_cons, h, ih]

/-- C7: `main` rejects, with exit status 1 and before any action of the
argument loop (in particular before any compilation), every configuration whose
number of `exe`-typed targets differs from one; with exactly one `exe` target
the check passes and the run goes on. -/
theorem exeScan_fst (ts : List TargetConfig) :
    (exeScan ts).1 = (ts.filter (fun t => sEq t.typ "exe")).length := by
  simpa [exeScan] using exeScan_foldl_fst ts 0 none

theorem exeScan_snd_isNone (ts : List TargetConfig) :
    (exeScan ts).2.isNone = (ts.filter (fun t => sEq t.typ "exe")).isEmpty := by
  simpa [exeScan] using exeScan_foldl_snd ts 0 none

theorem exactly_one_exe_enforced_before_build (targets : List TargetConfig) (args : List String) :
    ((targets.filter (fun t => sEq t.typ "exe")).length ≠ 1 →
      mainRun targets args = ([], some 1))
    ∧ ((targets.filter (fun t => sEq t.typ "exe")).length = 1 →
      (mainRun targets args).2 = none) := by
  constructor
  · intro h
    unfold mainRun
    by_cases hnil : (targets.length == 0) = true
    · simp [hnil]
    · have hne : ((exeScan targets).1 != 1) = true := by
        rw [exeScan_fst]
        simpa using h
      simp [hnil, hne]
  · intro h
    unfold mainRun
    have hnil : (targets.length == 0) = false := by
      cases targets with
      | nil => rw [List.filter_nil] at h; simp at h
      | cons t ts => simp
    have h1 : ((exeScan targets).1 != 1) = false := by
      simp [exeScan_fst, h]
    have h2 : (exeScan targets).2.isNone = false := by
      rw [exeScan_snd_isNone]
      cases hf : targets.filter (fun t => sEq t.typ "exe") with
      | nil => rw [hf] at h; simp at h
      | cons a l => simp
    simp [hnil, h1, h2]

/-- Second executable target used by the C7 witness. -/
def tcExe2 : TargetConfig := ⟨"tool", "./tools", "./include", "exe", "", "", []⟩

/-- Witness for C7: a configuration with two `exe` targets is rejected with
exit status 1 and an empty action list, and one with a single `exe` target
passes the check. -/
theorem exactly_one_exe_enforced_before_build_witness :
    (mainRun [tcExe, tcExe2] ["-b"] = ([], some 1))
    ∧ (mainRun [tcExe] ["-b"]).2 = none :=
  ⟨(exactly_one_exe_enforced_before_build [tcExe, tcExe2] ["-b"]).1 (by decide),
   (exactly_one_exe_enforced_before_build [tcExe] ["-b"]).2 (by decide)⟩

/-! ### Object-path derivation (`Target::get_src_name`, `Target::get_src_obj_name`) -/

/-- Mirrors `Target::get_src_name`: the file name (text after the last `/`)
truncated at its first `.`. -/
def get_src_name (path : String) : String :=
  (sSplitOn '.' ((sSplitOn '/' path).getLastD "")).headD ""

/-- Mirrors `Target::get_src_obj_name`. -/
def get_src_obj_name (build_config : BuildConfig) (src_name : String) : String :=
  build_config.obj_dir ++ "/" ++ src_name ++ ".o"

/-- Object path derived for a discovered source, as in `Target::add_src`. -/
def src_obj_path (build_config : BuildConfig) (path : String) : String :=
  get_src_obj_name build_config (get_src_name path)

/-- C10: every discovered source maps to `<obj_dir>/<prefix>.o` with `prefix`
the file name truncated at its first dot, so two sources agreeing up to the
first dot collide on the same object path whatever their directories. -/
theorem obj_path_from_first_dot_stem :
    (∀ (bc : BuildConfig) (path : String),
      src_obj_path bc path = bc.obj_dir ++ "/" ++ get_src_name path ++ ".o")
    ∧ (∀ (bc : BuildConfig) (p1 p2 : String),
      get_src_name p1 = get_src_name p2 → src_obj_path bc p1 = src_obj_path bc p2) :=
  ⟨fun _ _ => rfl, fun bc p1 p2 h => by simp [src_obj_path, get_src_obj_name, h]⟩

/-- Witness for C10: `src/a/foo.test.cpp` and `lib/foo.c` share the stem `foo`
and the object path `obj/foo.o`. -/
theorem obj_path_from_first_dot_stem_witness :
    get_src_name "src/a/foo.test.cpp" = get_src_name "lib/foo.c"
    ∧ src_obj_path bcEx "src/a/foo.test.cpp" = src_obj_path bcEx "lib/foo.c"
    ∧ src_obj_path bcEx "src/a/foo.test.cpp" = "obj/foo.o" :=
  ⟨rfl, obj_path_from_first_dot_stem.2 bcEx "src/a/foo.test.cpp" "lib/foo.c" rfl, rfl⟩

/-! ### Package resolver (`Package::parse_packages`, utils.rs 205-326)

`parse_config` is an external collaborator (spec section 1) modelled as a total
oracle `cfgs` from a config path to its parsed content; `cloneOk` is the
success bit of a `git clone` invocation; `mkdir -p` and the include-tree copy
are modelled as succeeding (their failures only exit the process, which no
claim under study exercises).  A run threads the set of existing paths and
returns the clone and config-parse invocations it performed.  The recursion of
the source is unbounded, so it carries fuel. -/

/-- Mirrors `utils::Package`. -/
structure Package where
  name : String
  repo : String
  branch : String
  build_config : BuildConfig
  target_configs : List TargetConfig
deriving Repr, DecidableEq

/-- External invocations a resolver run performs. -/
inductive PkgEvent where
  | cloneEv (repo branch dest : String)
  | parseEv (path : String)
deriving Repr, DecidableEq

/-- Outcome of a resolver run: success, `std::process::exit(1)` through the
leveled-diagnostic path, a Rust index-out-of-bounds panic, or fuel exhaustion. -/
inductive PRes (α : Type) where
  | ok : α → PRes α
  | fatalErr : PRes α
  | idxOob : PRes α
  | outOfFuel : PRes α
deriving Repr, DecidableEq

/-- The mutable locals of `parse_packages` (`packages`, `name`, `repo`,
`branch`, `build_config`, `target_configs`) plus the filesystem. -/
structure PkgLoopSt where
  packages : List Package
  name : String
  repo : String
  branch : String
  build_config : BuildConfig
  target_configs : List TargetConfig
  fs : List String
deriving Repr

/-- The `.replace("\\", "/").replace("/./", "/").replace("//", "/")` chain
applied to staged paths. -/
def normPath (s : String) : String :=
  sReplace (sReplace (sReplace s "\\" "/") "/./" "/") "//" "/"

/-- Mirrors the `for mut tgt in tgt_configs` staging loop: non-`dll` targets
are skipped, a kept target's source root is rebased into the staged clone and
its include root into the per-package include directory, which is created (and
populated by the copy) when absent. -/
def stage_targets (name source_dir : String) :
    List TargetConfig → List String → List TargetConfig × List String
  | [], fs => ([], fs)
  | tgt :: rest, fs =>
    if !(sEq tgt.typ "dll") then stage_targets name source_dir rest fs
    else
      let src1 := normPath (source_dir ++ "/" ++ tgt.src)
      let inc1 := normPath ("./.bld_cpp/includes/" ++ name)
      let fs1 := if memS inc1 fs then fs else inc1 :: fs
      let staged := stage_targets name source_dir rest fs1
      ({ tgt with src := src1, include_dir := inc1 } :: staged.1, staged.2)

/-- Mirrors `if !Path::new(&source_dir).exists() { mkdir; clone-or-fatal }` of
`parse_packages`: the clone happens only when the staging directory is absent,
and registers the directory as existing. -/
def clone_stage (cloneOk : String → String → String → Bool)
    (repo branch source_dir : String) (fs : List String) :
    PRes (List String × List PkgEvent) :=
  if memS source_dir fs then PRes.ok (fs, [])
  else if cloneOk repo branch source_dir then
    PRes.ok (source_dir :: fs, [PkgEvent.cloneEv repo branch source_dir])
  else PRes.fatalErr

/-- The part of a loop iteration of `parse_packages` after the repo, branch and
local name have been derived: clone when absent, parse the package config,
recurse on nested packages, merge the build config with the caller's compiler
and output directories, create the object directory when absent, and stage the
`dll` targets. -/
def step_core
    (recurse : String → List String → PRes (List Package × List String × List PkgEvent))
    (cfgs : String → BuildConfig × List TargetConfig)
    (cloneOk : String → String → String → Bool)
    (rootBc : BuildConfig) (repo branch name : String) (st : PkgLoopSt) :
    PRes (PkgLoopSt × List PkgEvent) :=
  let source_dir := "./.bld_cpp/sources/" ++ name ++ "/"
  match clone_stage cloneOk repo branch source_dir st.fs with
  | PRes.ok (fs1, evs1) =>
    let pkg_toml := source_dir ++ "/config_linux.toml"
    let pkg_bld := (cfgs pkg_toml).1
    let pkg_tgts := (cfgs pkg_toml).2
    match (if pkg_bld.packages.length > 0 then recurse pkg_toml fs1
           else PRes.ok ([], fs1, [])) with
    | PRes.ok (subPkgs, fs2, evs3) =>
      let bc1 : BuildConfig :=
        { pkg_bld with
          compiler := rootBc.compiler
          build_dir := rootBc.build_dir
          obj_dir := rootBc.obj_dir }
      let fs3 := if memS bc1.obj_dir fs2 then fs2 else bc1.obj_dir :: fs2
      let staged := stage_targets name source_dir pkg_tgts fs3
      PRes.ok
        ({ packages := st.packages ++ subPkgs
           name := name
           repo := repo
           branch := branch
           build_config := bc1
           target_configs := st.target_configs ++ staged.1
           fs := staged.2 },
         evs1 ++ PkgEvent.parseEv pkg_toml :: evs3)
    | PRes.fatalErr => PRes.fatalErr
    | PRes.idxOob => PRes.idxOob
    | PRes.outOfFuel => PRes.outOfFuel
  | PRes.fatalErr => PRes.fatalErr
  | PRes.idxOob => PRes.idxOob
  | PRes.outOfFuel => PRes.outOfFuel

/-- Mirrors one iteration of the `for package in build_config_toml.packages`
loop of `parse_packages`: token split (fatal unless exactly two), comma
deletion from the repo token, local name from `repo.split("/")[1]` (an
out-of-bounds panic when the token has no `/`), then `step_core`. -/
def step_package
    (recurse : String → List String → PRes (List Package × List String × List PkgEvent))
    (cfgs : String → BuildConfig × List TargetConfig)
    (cloneOk : String → String → String → Bool)
    (rootBc : BuildConfig) (package : String) (st : PkgLoopSt) :
    PRes (PkgLoopSt × List PkgEvent) :=
  let deets := splitWhitespaceS package
  if !(deets.length == 2) then PRes.fatalErr
  else
    let repo := sReplace (deets.getD 0 "") "," ""
    let branch := deets.getD 1 ""
    let parts := sSplitOn '/' repo
    if parts.length ≤ 1 then PRes.idxOob
    else step_core recurse cfgs cloneOk rootBc repo branch (parts.getD 1 "") st

/-- Folding one declared package into the accumulated loop state, threading
errors (named so the fold of `parse_packages` can be reasoned about). -/
def pkg_fold_step
    (recurse : String → List String → PRes (List Package × List String × List PkgEvent))
    (cfgs : String → BuildConfig × List TargetConfig)
    (cloneOk : String → String → String → Bool)
    (rootBc : BuildConfig)
    (acc : PRes (PkgLoopSt × List PkgEvent)) (package : String) :
    PRes (PkgLoopSt × List PkgEvent) :=
  match acc with
  | PRes.ok (st, evs) =>
    match step_package recurse cfgs cloneOk rootBc package st with
    | PRes.ok (st1, evs1) => PRes.ok (st1, evs ++ evs1)
    | PRes.fatalErr => PRes.fatalErr
    | PRes.idxOob => PRes.idxOob
    | PRes.outOfFuel => PRes.outOfFuel
  | e => e

/-- Mirrors `Package::parse_packages`: parse the root config, iterate over its
declared packages, and after the loop push the single record built from the
locals (so one record per call, carrying the name and repo of the last
iteration and the targets accumulated over all iterations). -/
def parse_packages (cfgs : String → BuildConfig × List TargetConfig)
    (cloneOk : String → String → String → Bool) :
    Nat → String → List String → PRes (List Package × List String × List PkgEvent)
  | 0, _, _ => PRes.outOfFuel
  | fuel + 1, path, fs =>
    let rootBc := (cfgs path).1
    match rootBc.packages.foldl
        (pkg_fold_step (fun p f => parse_packages cfgs cloneOk fuel p f) cfgs cloneOk rootBc)
        (PRes.ok ({ packages := [], name := "", repo := "", branch := ""
                    build_config := ⟨"", "", "", []⟩, target_configs := [], fs := fs }, [])) with
    | PRes.ok (st, evs) =>
      PRes.ok
        (st.packages ++ [⟨st.name, st.repo, st.branch, st.build_config, st.target_configs⟩],
         st.fs, PkgEvent.parseEv path :: evs)
    | PRes.fatalErr => PRes.fatalErr
    | PRes.idxOob => PRes.idxOob
    | PRes.outOfFuel => PRes.outOfFuel

/-- Clone oracle under which every clone succeeds. -/
def cloneAlwaysOk : String → String → String → Bool := fun _ _ _ => true

/-- Names of the records of a successful resolver run. -/
def pkgNames (r : PRes (List Package × List String × List PkgEvent)) : Option (List String) :=
  match r with
  | PRes.ok (pkgs, _, _) => some (pkgs.map (fun p => p.name))
  | _ => none

/-- Target names carried by the last record of a successful resolver run. -/
def lastRecordTargets (r : PRes (List Package × List String × List PkgEvent)) :
    Option (List String) :=
  match r with
  | PRes.ok (pkgs, _, _) =>
    some ((pkgs.getLastD ⟨"", "", "", ⟨"", "", "", []⟩, []⟩).target_configs.map (fun t => t.name))
  | _ => none

/-- Repo and name of the last record of a successful resolver run. -/
def lastRecordRepoName (r : PRes (List Package × List String × List PkgEvent)) :
    Option (String × String) :=
  match r with
  | PRes.ok (pkgs, _, _) =>
    some ((pkgs.getLastD ⟨"", "", "", ⟨"", "", "", []⟩, []⟩).repo,
          (pkgs.getLastD ⟨"", "", "", ⟨"", "", "", []⟩, []⟩).name)
  | _ => none

/-! ### C4: the flattened package list has one record per config, not per package

Root declares `[P1, P2]` and `P1` declares `[P3]`.  The code emits the nested
`P3` record ahead, but then a single record for the whole root loop, named
after the last declared package `P2` and carrying both `P1`'s and `P2`'s staged
targets: no record named `P1` exists. -/

/-- Config oracle of the C4 example: root declares P1 then P2, P1 declares P3,
each package exposing one `dll` target. -/
def cfgsC4 : String → BuildConfig × List TargetConfig := fun p =>
  if sEq p "config_linux.toml" then
    (⟨"gcc", "bin", "obj", ["org/P1 main", "org/P2 main"]⟩, [])
  else if sEq p "./.bld_cpp/sources/P1//config_linux.toml" then
    (⟨"cc1", "b1", "o1", ["org/P3 main"]⟩, [⟨"p1lib", "src", "inc", "dll", "", "", []⟩])
  else if sEq p "./.bld_cpp/sources/P2//config_linux.toml" then
    (⟨"cc2", "b2", "o2", []⟩, [⟨"p2lib", "src", "inc", "dll", "", "", []⟩])
  else if sEq p "./.bld_cpp/sources/P3//config_linux.toml" then
    (⟨"cc3", "b3", "o3", []⟩, [⟨"p3lib", "src", "inc", "dll", "", "", []⟩])
  else (⟨"", "", "", []⟩, [])

/-- C4 fails on the code: with root declaring `[P1, P2]` and `P1` declaring
`[P3]`, the run succeeds but returns exactly two records, `P3` then `P2` (no
record named `P1` although `org/P1` is the first declared package), and the
`P2`-named record carries `P1`'s staged library alongside `P2`'s. -/
theorem one_record_per_config_not_per_package :
    pkgNames (parse_packages cfgsC4 cloneAlwaysOk 5 "config_linux.toml" []) = some ["P3", "P2"]
    ∧ lastRecordTargets (parse_packages cfgsC4 cloneAlwaysOk 5 "config_linux.toml" [])
        = some ["p1lib", "p2lib"]
    ∧ (cfgsC4 "config_linux.toml").1.packages = ["org/P1 main", "org/P2 main"] :=
  ⟨rfl, rfl, rfl⟩

/-! ### C9: a repo token without `/` panics instead of exiting fatally -/

/-- Config oracle whose root declares the malformed package `"foobar main"`
(first token has no `/`). -/
def cfgsC9 : String → BuildConfig × List TargetConfig := fun p =>
  if sEq p "config_linux.toml" then (⟨"gcc", "bin", "obj", ["foobar main"]⟩, [])
  else (⟨"", "", "", []⟩, [])

/-- Config oracle whose root declares `"o,rg/re,po, main"`, exercising the
comma deletion of the repo token. -/
def cfgsC9b : String → BuildConfig × List TargetConfig := fun p =>
  if sEq p "config_linux.toml" then (⟨"gcc", "bin", "obj", ["o,rg/re,po, main"]⟩, [])
  else (⟨"", "", "", []⟩, [])

/-- C9: a declared package whose first whitespace-separated token has no `/`
drives `parse_packages` into the index-out-of-bounds panic of
`repo.split("/")[1]`, not into the leveled-diagnostic fatal exit; and every
comma of the repo token is deleted before the name is derived, so
`"o,rg/re,po,"` yields repo `org/repo` and local name `repo`. -/
theorem missing_slash_panics_and_commas_deleted :
    parse_packages cfgsC9 cloneAlwaysOk 5 "config_linux.toml" [] = PRes.idxOob
    ∧ parse_packages cfgsC9 cloneAlwaysOk 5 "config_linux.toml" []
        ≠ (PRes.fatalErr : PRes (List Package × List String × List PkgEvent))
    ∧ lastRecordRepoName (parse_packages cfgsC9b cloneAlwaysOk 5 "config_linux.toml" [])
        = some ("org/repo", "repo") :=
  ⟨rfl, by decide, rfl⟩

/-! ### C6: a clone happens only for an absent staging directory, at most once
per destination

The invariant `SegOK fs fs' evs` states, for a run segment from filesystem `fs`
to `fs'` with invocations `evs`: the filesystem only grows, the cloned
destinations are pairwise distinct, and each was absent when the segment
started and exists when it ends.  It composes sequentially, which gives the
at-most-once-per-destination property across the whole recursion. -/

/-- Destinations of the clone invocations of a run segment, in order. -/
def cloneDests (evs : List PkgEvent) : List String :=
  evs.filterMap (fun e => match e with
    | PkgEvent.cloneEv _ _ d => some d
    | _ => none)

/-- Invariant of a resolver run segment, see the section comment. -/
def SegOK (fs fs' : List String) (evs : List PkgEvent) : Prop :=
  fs ⊆ fs' ∧ (cloneDests evs).Nodup ∧ ∀ d ∈ cloneDests evs, d ∉ fs ∧ d ∈ fs'

theorem sEq_iff (a b : String) : sEq a b = true ↔ a = b := by
  cases a
  cases b
  simp only [sEq, beq_iff_eq]
  constructor
  · intro h
    rw [h]
  · intro h
    exact congrArg String.data h

theorem memS_iff (x : String) (l : List String) : memS x l = true ↔ x ∈ l := by
  simp [memS, List.any_eq_true, sEq_iff]

theorem cloneDests_append (e1 e2 : List PkgEvent) :
    cloneDests (e1 ++ e2) = cloneDests e1 ++ cloneDests e2 := by
  simp [cloneDests]

theorem cloneDests_parse_cons (p : String) (evs : List PkgEvent) :
    cloneDests (PkgEvent.parseEv p :: evs) = cloneDests evs := rfl

theorem segOK_refl (fs : List String) : SegOK fs fs [] :=
  ⟨List.Subset.refl fs, List.nodup_nil, by simp [cloneDests]⟩

theorem segOK_comp {a b c : List String} {e1 e2 : List PkgEvent}
    (h1 : SegOK a b e1) (h2 : SegOK b c e2) : SegOK a c (e1 ++ e2) := by
  obtain ⟨hab, hnd1, hm1⟩ := h1
  obtain ⟨hbc, hnd2, hm2⟩ := h2
  refine ⟨hab.trans hbc, ?_, ?_⟩
  · rw [cloneDests_append]
    refine hnd1.append hnd2 ?_
    intro d hd1 hd2
    exact (hm2 d hd2).1 ((hm1 d hd1).2)
  · intro d hd
    rw [cloneDests_append, List.mem_append] at hd
    rcases hd with hd | hd
    · exact ⟨(hm1 d hd).1, hbc ((hm1 d hd).2)⟩
    · exact ⟨fun hda => (hm2 d hd).1 (hab hda), (hm2 d hd).2⟩

theorem segOK_post {a b c : List String} {e : List PkgEvent}
    (h : SegOK a b e) (hbc : b ⊆ c) : SegOK a c e := by
  obtain ⟨hab, hnd, hm⟩ := h
  exact ⟨hab.trans hbc, hnd, fun d hd => ⟨(hm d hd).1, hbc (hm d hd).2⟩⟩

theorem segOK_parse_cons (p : String) {a b : List String} {evs : List PkgEvent}
    (h : SegOK a b evs) : SegOK a b (PkgEvent.parseEv p :: evs) := by
  obtain ⟨hab, hnd, hm⟩ := h
  exact ⟨hab, by rwa [cloneDests_parse_cons], by rwa [cloneDests_parse_cons]⟩

theorem clone_stage_segOK {cloneOk : String → String → String → Bool}
    {repo branch sd : String} {fs fs1 : List String} {evs1 : List PkgEvent}
    (h : clone_stage cloneOk repo branch sd fs = PRes.ok (fs1, evs1)) : SegOK fs fs1 evs1 := by
  unfold clone_stage at h
  by_cases hin : memS sd fs
  · simp only [hin, if_pos, PRes.ok.injEq, Prod.mk.injEq] at h
    obtain ⟨h1, h2⟩ := h
    subst h1
    subst h2
    exact segOK_refl fs
  · by_cases hcl : cloneOk repo branch sd
    · simp only [hin, hcl, Bool.false_eq_true, if_false, if_pos, PRes.ok.injEq,
        Prod.mk.injEq] at h
      obtain ⟨h1, h2⟩ := h
      subst h1
      subst h2
      refine ⟨List.subset_cons_self sd fs, by simp [cloneDests], ?_⟩
      intro d hd
      simp only [cloneDests, List.filterMap_cons, List.filterMap_nil] at hd
      simp only [List.mem_singleton] at hd
      subst hd
      exact ⟨fun hmem => hin ((memS_iff _ _).2 hmem), List.mem_cons_self _ _⟩
    · simp [hin, hcl] at h

theorem stage_targets_fs_mono (name sd : String) (tgts : List TargetConfig) (fs : List String) :
    fs ⊆ (stage_targets name sd tgts fs).2 := by
  induction tgts generalizing fs with
  | nil => exact List.Subset.refl fs
  | cons t ts ih =>
    by_cases h : sEq t.typ "dll"
    · simp only [stage_targets, h, Bool.not_true, Bool.false_eq_true, if_false]
      by_cases hm : memS (normPath ("./.bld_cpp/includes/" ++ name)) fs
      · simpa [hm] using ih fs
      · simp only [hm, Bool.false_eq_true, if_false]
        exact (List.subset_cons_self _ fs).trans (ih _)
    · simpa [stage_targets, h] using ih fs

theorem step_core_segOK
    {recurse : String → List String → PRes (List Package × List String × List PkgEvent)}
    {cfgs : String → BuildConfig × List TargetConfig}
    {cloneOk : String → String → String → Bool}
    {rootBc : BuildConfig} {repo branch name : String} {st : PkgLoopSt}
    {st1 : PkgLoopSt} {evs : List PkgEvent}
    (hrec : ∀ p f pk f' e, recurse p f = PRes.ok (pk, f', e) → SegOK f f' e)
    (h : step_core recurse cfgs cloneOk rootBc repo branch name st = PRes.ok (st1, evs)) :
    SegOK st.fs st1.fs evs := by
  simp only [step_core] at h
  split at h
  case _ fs1 evs1 hc =>
    split at h
    case _ subPkgs fs2 evs3 hn =>
      simp only [PRes.ok.injEq, Prod.mk.injEq] at h
      obtain ⟨h1, h2⟩ := h
      subst h1
      subst h2
      have hseg1 : SegOK st.fs fs1 evs1 := clone_stage_segOK hc
      have hseg2 : SegOK fs1 fs2 evs3 := by
        by_cases hp : ((cfgs ("./.bld_cpp/sources/" ++ name ++ "/" ++ "/config_linux.toml")).1.packages.length > 0)
        · rw [if_pos hp] at hn
          exact hrec _ _ _ _ _ hn
        · rw [if_neg hp] at hn
          simp only [PRes.ok.injEq, Prod.mk.injEq] at hn
          obtain ⟨_, h3, h4⟩ := hn
          subst h3
          subst h4
          exact segOK_refl fs1
      refine segOK_post
        (segOK_comp hseg1
          (segOK_parse_cons ("./.bld_cpp/sources/" ++ name ++ "/" ++ "/config_linux.toml")
            hseg2)) ?_
      refine List.Subset.trans ?_ (stage_targets_fs_mono _ _ _ _)
      by_cases hm : memS rootBc.obj_dir fs2
      · simp [hm]
      · simp only [hm, Bool.false_eq_true, if_false]
        exact List.subset_cons_self _ _
    case _ hn => exact PRes.noConfusion h
    case _ hn => exact PRes.noConfusion h
    case _ hn => exact PRes.noConfusion h
  case _ hc => exact PRes.noConfusion h
  case _ hc => exact PRes.noConfusion h
  case _ hc => exact PRes.noConfusion h

theorem step_package_segOK
    {recurse : String → List String → PRes (List Package × List String × List PkgEvent)}
    {cfgs : String → BuildConfig × List TargetConfig}
    {cloneOk : String → String → String → Bool}
    {rootBc : BuildConfig} {package : String} {st : PkgLoopSt}
    {st1 : PkgLoopSt} {evs : List PkgEvent}
    (hrec : ∀ p f pk f' e, recurse p f = PRes.ok (pk, f', e) → SegOK f f' e)
    (h : step_package recurse cfgs cloneOk rootBc package st = PRes.ok (st1, evs)) :
    SegOK st.fs st1.fs evs := by
  simp only [step_package] at h
  split at h
  · exact PRes.noConfusion h
  · split at h
    · exact PRes.noConfusion h
    · exact step_core_segOK hrec h

theorem pkg_foldl_err
    (recurse : String → List String → PRes (List Package × List String × List PkgEvent))
    (cfgs : String → BuildConfig × List TargetConfig)
    (cloneOk : String → String → String → Bool) (rootBc : BuildConfig)
    (ps : List String) (e : PRes (PkgLoopSt × List PkgEvent))
    (he : ∀ x, e ≠ PRes.ok x) :
    ps.foldl (pkg_fold_step recurse cfgs cloneOk rootBc) e = e := by
  induction ps with
  | nil => rfl
  | cons p ps ih =>
    have hstep : pkg_fold_step recurse cfgs cloneOk rootBc e p = e := by
      cases e with
      | ok x => exact absurd rfl (he x)
      | fatalErr => rfl
      | idxOob => rfl
      | outOfFuel => rfl
    simpa [List.foldl, hstep] using ih

theorem pkg_foldl_segOK
    {recurse : String → List String → PRes (List Package × List String × List PkgEvent)}
    {cfgs : String → BuildConfig × List TargetConfig}
    {cloneOk : String → String → String → Bool} {rootBc : BuildConfig}
    (hrec : ∀ p f pk f' e, recurse p f = PRes.ok (pk, f', e) → SegOK f f' e) :
    ∀ (ps : List String) (st : PkgLoopSt) (evs : List PkgEvent) (fs0 : List String)
      (st' : PkgLoopSt) (evs' : List PkgEvent),
      SegOK fs0 st.fs evs →
      ps.foldl (pkg_fold_step recurse cfgs cloneOk rootBc) (PRes.ok (st, evs))
        = PRes.ok (st', evs') →
      SegOK fs0 st'.fs evs' := by
  intro ps
  induction ps with
  | nil =>
    intro st evs fs0 st' evs' hseg h
    simp only [List.foldl_nil, PRes.ok.injEq, Prod.mk.injEq] at h
    obtain ⟨h1, h2⟩ := h
    subst h1
    subst h2
    exact hseg
  | cons p ps ih =>
    intro st evs fs0 st' evs' hseg h
    simp only [List.foldl_cons] at h
    cases hs : step_package recurse cfgs cloneOk rootBc p st with
    | ok pr =>
      obtain ⟨st1, evs1⟩ := pr
      rw [show pkg_fold_step recurse cfgs cloneOk rootBc (PRes.ok (st, evs)) p
            = PRes.ok (st1, evs ++ evs1) by simp [pkg_fold_step, hs]] at h
      exact ih st1 (evs ++ evs1) fs0 st' evs'
        (segOK_comp hseg (step_package_segOK hrec hs)) h
    | fatalErr =>
      rw [show pkg_fold_step recurse cfgs cloneOk rootBc (PRes.ok (st, evs)) p
            = PRes.fatalErr by simp [pkg_fold_step, hs]] at h
      rw [pkg_foldl_err _ _ _ _ _ _ (fun x => by simp)] at h
      exact PRes.noConfusion h
    | idxOob =>
      rw [show pkg_fold_step recurse cfgs cloneOk rootBc (PRes.ok (st, evs)) p
            = PRes.idxOob by simp [pkg_fold_step, hs]] at h
      rw [pkg_foldl_err _ _ _ _ _ _ (fun x => by simp)] at h
      exact PRes.noConfusion h
    | outOfFuel =>
      rw [show pkg_fold_step recurse cfgs cloneOk rootBc (PRes.ok (st, evs)) p
            = PRes.outOfFuel by simp [pkg_fold_step, hs]] at h
      rw [pkg_foldl_err _ _ _ _ _ _ (fun x => by simp)] at h
      exact PRes.noConfusion h

theorem parse_packages_segOK :
    ∀ (fuel : Nat) (cfgs : String → BuildConfig × List TargetConfig)
      (cloneOk : String → String → String → Bool) (path : String)
      (fs : List String) (pkgs : List Package) (fs' : List String) (evs : List PkgEvent),
      parse_packages cfgs cloneOk fuel path fs = PRes.ok (pkgs, fs', evs) →
      SegOK fs fs' evs := by
  intro fuel
  induction fuel with
  | zero =>
    intro cfgs cloneOk path fs pkgs fs' evs h
    exact PRes.noConfusion h
  | succ f ih =>
    intro cfgs cloneOk path fs pkgs fs' evs h
    simp only [parse_packages] at h
    split at h
    case _ st evsL heq =>
      simp only [PRes.ok.injEq, Prod.mk.injEq] at h
      obtain ⟨_, h2, h3⟩ := h
      subst h2
      subst h3
      refine segOK_parse_cons _ ?_
      exact pkg_foldl_segOK (fun p f0 pk f0' e hh => ih cfgs cloneOk p f0 pk f0' e hh)
        _ _ [] fs st evsL (segOK_refl fs) heq
    case _ heq => exact PRes.noConfusion h
    case _ heq => exact PRes.noConfusion h
    case _ heq => exact PRes.noConfusion h

/-- Records of a successful resolver run (empty otherwise). -/
def runPkgs (r : PRes (List Package × List String × List PkgEvent)) : List Package :=
  match r with
  | PRes.ok (pkgs, _, _) => pkgs
  | _ => []

/-- Final filesystem of a successful resolver run (empty otherwise). -/
def runFs (r : PRes (List Package × List String × List PkgEvent)) : List String :=
  match r with
  | PRes.ok (_, fs, _) => fs
  | _ => []

/-- Invocations of a successful resolver run (empty otherwise). -/
def runEvents (r : PRes (List Package × List String × List PkgEvent)) : List PkgEvent :=
  match r with
  | PRes.ok (_, _, evs) => evs
  | _ => []

/-- Config oracle of the Scenario D example: root declares only P1, whose
config declares no further packages and exposes one `dll` and one `exe`
target. -/
def cfgsD : String → BuildConfig × List TargetConfig := fun p =>
  if sEq p "config_linux.toml" then (⟨"gcc", "bin", "obj", ["org/P1 main"]⟩, [])
  else if sEq p "./.bld_cpp/sources/P1//config_linux.toml" then
    (⟨"cc1", "b1", "o1", []⟩,
     [⟨"p1lib", "src", "inc", "dll", "", "", []⟩, ⟨"p1app", "src", "inc", "exe", "", "", []⟩])
  else (⟨"", "", "", []⟩, [])

/-- Filesystem in which P1's staging directory already exists. -/
def fsD : List String := ["./.bld_cpp/sources/P1/"]

/-- The Scenario D run: P1 already staged. -/
def runD : PRes (List Package × List String × List PkgEvent) :=
  parse_packages cfgsD cloneAlwaysOk 5 "config_linux.toml" fsD

/-- The C4 example run, reused as a concrete successful run with three clones. -/
def runC4 : PRes (List Package × List String × List PkgEvent) :=
  parse_packages cfgsC4 cloneAlwaysOk 5 "config_linux.toml" []

/-- C6: in every successful `parse_packages` run the cloned destinations are
pairwise distinct (a repo and branch is fetched at most once per destination
directory) and each was absent when the run started and exists at its end; and
in the concrete Scenario D run, whose staging directory pre-exists, no clone at
all happens while the package's config is still parsed and its `dll` target
still staged and appended. -/
theorem clone_only_when_staging_dir_absent :
    (∀ (cfgs : String → BuildConfig × List TargetConfig)
       (cloneOk : String → String → String → Bool) (fuel : Nat) (path : String)
       (fs : List String) (pkgs : List Package) (fs' : List String) (evs : List PkgEvent),
      parse_packages cfgs cloneOk fuel path fs = PRes.ok (pkgs, fs', evs) →
      (cloneDests evs).Nodup ∧ ∀ d ∈ cloneDests evs, d ∉ fs ∧ d ∈ fs')
    ∧ cloneDests (runEvents runD) = []
    ∧ PkgEvent.parseEv "./.bld_cpp/sources/P1//config_linux.toml" ∈ runEvents runD
    ∧ lastRecordTargets runD = some ["p1lib"] := by
  refine ⟨?_, rfl, by decide, rfl⟩
  intro cfgs cloneOk fuel path fs pkgs fs' evs h
  obtain ⟨_, hnd, hm⟩ := parse_packages_segOK fuel cfgs cloneOk path fs pkgs fs' evs h
  exact ⟨hnd, hm⟩

/-- Witness for C6: on the concrete three-package run of the C4 example world
the clone destinations are pairwise distinct, absent initially and present in
the final filesystem. -/
theorem clone_only_when_staging_dir_absent_witness :
    (cloneDests (runEvents runC4)).Nodup
    ∧ ∀ d ∈ cloneDests (runEvents runC4), d ∉ ([] : List String) ∧ d ∈ runFs runC4 :=
  clone_only_when_staging_dir_absent.1 cfgsC4 cloneAlwaysOk 5 "config_linux.toml" []
    (runPkgs runC4) (runFs runC4) (runEvents runC4) rfl

end BuilderCpp
